/-
Verification of the music-recommender embedding-fusion and similarity-search
core against its specification.

Shallow embedding conventions:
  * numeric vectors (numpy 1-D float arrays) are `List ℝ`;
  * a float array that may hold `-np.inf` entries is `List (WithBot ℝ)`,
    with `⊥` standing for `-inf`;
  * absent/null vectors are `Option (List ℝ)` with `none` for null;
  * `np.argsort` (ascending) followed by `[::-1]` is modelled as a stable
    ascending sort on (index, value) pairs — ties broken by ascending
    original index, which is what numpy's sort does on the small inputs
    exercised here — followed by `List.reverse`; numpy's default
    quicksort is not stable, so no general theorem below relies on the
    model's tie order: the sortedness and exclusion theorems are
    invariant under tie-breaking, and tie order is only evaluated in
    concrete small-array counterexamples;
  * fallible paths (numpy/pandas exceptions) are `Except String _`.
-/
import Mathlib

abbrev Vec := List ℝ

/-! ## SimilarityEngine (src/recommender/engine/similarity_engine.py) -/

namespace SimilarityEngine

/-- The supported metric names; an unsupported string is rejected in
`__init__`, so the engine is modelled as carrying one of the three. -/
inductive Metric where
  | cosine
  | euclidean
  | dot
deriving DecidableEq

/-- Model of `np.dot` on two 1-D arrays. -/
def dotProd (a b : Vec) : ℝ := (List.zipWith (· * ·) a b).sum

/-- Sum of squared entries (the square of the L2 norm). -/
def normSq (a : Vec) : ℝ := (a.map (fun x => x ^ 2)).sum

/-- Model of `np.linalg.norm` (L2). -/
noncomputable def l2norm (a : Vec) : ℝ := Real.sqrt (normSq a)

/-- One entry of sklearn's `cosine_similarity` (Lean's `x / 0 = 0`
convention coincides with sklearn mapping zero rows to zero scores). -/
noncomputable def cosinePair (a b : Vec) : ℝ := dotProd a b / (l2norm a * l2norm b)

/-- sklearn `cosine_similarity(Q, T)`: all-pairs cosine matrix. -/
noncomputable def cosine_similarity (Q T : List Vec) : List (List ℝ) :=
  Q.map (fun q => T.map (fun t => cosinePair q t))

/-- One entry of sklearn's `euclidean_distances`. -/
noncomputable def euclidPair (a b : Vec) : ℝ :=
  Real.sqrt ((List.zipWith (fun x y => (x - y) ^ 2) a b).sum)

/-- sklearn `euclidean_distances(Q, T)`: all-pairs distance matrix. -/
noncomputable def euclidean_distances (Q T : List Vec) : List (List ℝ) :=
  Q.map (fun q => T.map (fun t => euclidPair q t))

/-- Model of `np.dot(Q, T.T)`. -/
def matmulT (Q T : List Vec) : List (List ℝ) :=
  Q.map (fun q => T.map (fun t => dotProd q t))

/-- The `similarities` vector computed at the top of `find_similar`,
one branch per metric, mirroring lines 55-62 of the source. -/
noncomputable def computeSimilarities (m : Metric) (q : Vec) (M : List Vec) : List ℝ :=
  match m with
  | .cosine => (cosine_similarity [q] M).headD []
  | .euclidean => ((euclidean_distances [q] M).headD []).map (fun d => 1 / (1 + d))
  | .dot => M.map (fun row => dotProd row q)

/-- Lines 65-68: each exclude index that satisfies `0 <= idx < len(similarities)`
has its score overwritten with `-np.inf` (here `⊥`). -/
def applyExclusions (sims : List (WithBot ℝ)) (exclude : List ℤ) : List (WithBot ℝ) :=
  exclude.foldl
    (fun s idx => if 0 ≤ idx ∧ idx < (s.length : ℤ) then s.set idx.toNat ⊥ else s) sims

/-- Ascending comparison used to model `np.argsort`: by value, ties by
original position (numpy's sort is stable on these inputs). -/
def argsortRel (a b : ℕ × WithBot ℝ) : Prop :=
  a.2 < b.2 ∨ (a.2 = b.2 ∧ a.1 ≤ b.1)

noncomputable instance : DecidableRel argsortRel := fun a b => by
  unfold argsortRel; exact inferInstance

/-- Model of `SimilarityEngine.find_similar` (lines 31-79): compute the similarity
vector, push excluded indices to `-inf`, `np.argsort(...)[::-1][:k]`, and
return the `(index, score)` pairs. -/
noncomputable def find_similar (m : Metric) (q : Vec) (M : List Vec) (k : ℕ)
    (exclude : List ℤ) : List (ℕ × WithBot ℝ) :=
  let sims := (computeSimilarities m q M).map (fun x : ℝ => (x : WithBot ℝ))
  let sims := applyExclusions sims exclude
  (((sims.enum).insertionSort argsortRel).reverse).take k

/-- Model of `SimilarityEngine.compute_similarity` (lines 81-108): single-pair
variant, extracting entry `[0][0]` of the corresponding library call. -/
noncomputable def compute_similarity (m : Metric) (e1 e2 : Vec) : ℝ :=
  match m with
  | .cosine => ((cosine_similarity [e1] [e2]).headD []).headD 0
  | .euclidean => 1 / (1 + ((euclidean_distances [e1] [e2]).headD []).headD 0)
  | .dot => ((matmulT [e1] [e2]).headD []).headD 0

/-- Model of `SimilarityEngine.batch_similarity` (lines 110-131). -/
noncomputable def batch_similarity (m : Metric) (Q T : List Vec) : List (List ℝ) :=
  match m with
  | .cosine => cosine_similarity Q T
  | .euclidean => (euclidean_distances Q T).map (fun row => row.map (fun d => 1 / (1 + d)))
  | .dot => matmulT Q T

/-- Number of candidates whose score is not `-inf` after exclusion. -/
def countActive (l : List (WithBot ℝ)) : ℕ :=
  l.countP (fun s => !(WithBot.recBotCoe true (fun _ => false) s : Bool))

end SimilarityEngine

/-! ## EmbeddingCombiner (src/embeddings/embedding_combiner.py) -/

namespace EmbeddingCombiner

open SimilarityEngine (normSq l2norm)

/-- Model of `EmbeddingCombiner._normalize_vector` (lines 99-112): divide by the L2
norm, with an explicit zero-norm guard returning the vector unchanged. -/
noncomputable def normalize_vector (v : Vec) : Vec :=
  if l2norm v = 0 then v else v.map (fun x => x / l2norm v)

/-- The per-row body of `EmbeddingCombiner.combine_embeddings`
(lines 59-88): `None` on either input propagates to `None`; otherwise
optionally normalize each input, scale by the weights, concatenate text
part followed by feature part, and optionally normalize the result. -/
noncomputable def combine_embeddings (text_emb feature_emb : Option Vec)
    (text_weight features_weight : ℝ) (normalize : Bool) : Option Vec :=
  match text_emb, feature_emb with
  | some t, some f =>
    let t := if normalize then normalize_vector t else t
    let f := if normalize then normalize_vector f else f
    let text_weighted := t.map (fun x => x * text_weight)
    let features_weighted := f.map (fun x => x * features_weight)
    let combined := text_weighted ++ features_weighted
    some (if normalize then normalize_vector combined else combined)
  | _, _ => none

end EmbeddingCombiner

/-! ## FeatureEmbeddingsGenerator missing-value handling
(src/embeddings/generators/feature_embeddings.py, lines 130-147)

A feature column is a `List (Option ℚ)` (`none` = NaN); a feature matrix is
its list of columns, mirroring the per-column iteration of the source. -/

namespace FeatureEmbeddingsGenerator

/-- Model of `pandas.Series.median` over the observed (non-NaN) entries: middle of
the sorted values, or mean of the two middles; NaN (`none`) when there are
no observed values. -/
def pandasMedian (l : List ℚ) : Option ℚ :=
  let s := l.insertionSort (· ≤ ·)
  let n := s.length
  if n = 0 then none
  else if n % 2 = 1 then some (s.getD (n / 2) 0)
  else some ((s.getD (n / 2 - 1) 0 + s.getD (n / 2) 0) / 2)

/-- One iteration of the column loop in `_handle_missing_values`
(lines 141-145): if the column has any NaN, `fillna` with the column
median.  When every entry is NaN the median itself is NaN and
`fillna(NaN)` leaves the column unchanged. -/
def handle_missing_values_col (col : List (Option ℚ)) : List (Option ℚ) :=
  if col.any (fun x => x.isNone) then
    match pandasMedian (col.filterMap id) with
    | some m => col.map (fun x => some (x.getD m))
    | none => col
  else col

/-- Model of `FeatureEmbeddingsGenerator._handle_missing_values` (lines 130-147),
applied column by column. -/
def handle_missing_values (X : List (List (Option ℚ))) : List (List (Option ℚ)) :=
  X.map handle_missing_values_col

end FeatureEmbeddingsGenerator

/-! ## MusicRecommender (src/recommender/engine/recommender.py) -/

namespace MusicRecommender

/-- One row of the embeddings dataframe loaded by `load_data`. -/
structure TrackRecord where
  track_id : String
  track_name : String
  artist_name : String
  album_name : String
  text_embedding : Option Vec
  feature_embedding : Option Vec
  combined_embedding : Option Vec

instance : Inhabited TrackRecord := ⟨⟨"", "", "", "", none, none, none⟩⟩

/-- The configuration keys consulted by the recommender, with the
defaults the source supplies to `config.get`. -/
structure Config where
  fuzzy_matching : Bool := true
  fuzzy_threshold : ℚ := 8 / 10
  exclude_same_artist : Bool := false
  min_similarity_threshold : ℝ := 0

/-- Python truthiness of an optional string argument (`if track_id:`):
false for `None` and for the empty string. -/
def truthy : Option String → Bool
  | some s => !s.isEmpty
  | none => false

/-- Model of `str.lower()` as a character list (ASCII-adequate). -/
def lower (s : String) : List Char := s.toList.map Char.toLower

/-! ### difflib.SequenceMatcher

`SequenceMatcher(None, a, b).ratio()` for short strings (no junk, no
autojunk): total size of the matching blocks, scaled by the lengths. -/

/-- Length of the common prefix of two character lists. -/
def matchingRun : List Char → List Char → ℕ
  | a :: as, b :: bs => if a = b then matchingRun as bs + 1 else 0
  | _, _ => 0

/-- Model of `find_longest_match` over the whole ranges: the longest common
contiguous block `(i, j, size)`, earliest in `a` then earliest in `b`
among maxima (difflib's documented tie-breaking). -/
def find_longest_match (a b : List Char) : ℕ × ℕ × ℕ :=
  (List.range a.length).foldl
    (fun best i =>
      (List.range b.length).foldl
        (fun best j =>
          let k := matchingRun (a.drop i) (b.drop j)
          if best.2.2 < k then (i, j, k) else best)
        best)
    (0, 0, 0)

/-- Model of the `get_matching_blocks` total match size, fuelled: recursion on the
parts left and right of the longest block.  Each recursive call strictly
decreases `a.length + b.length` (the block is nonempty), so fuel
`a.length + b.length` always suffices and the fuel-exhausted arm is
unreachable from `matchCount`. -/
def matchCountF : ℕ → List Char → List Char → ℕ
  | 0, _, _ => 0
  | fuel + 1, a, b =>
    let best := find_longest_match a b
    let i := best.1
    let j := best.2.1
    let k := best.2.2
    if k = 0 then 0
    else matchCountF fuel (a.take i) (b.take j) + k
      + matchCountF fuel (a.drop (i + k)) (b.drop (j + k))

/-- Sum of the sizes of all matching blocks of `a` and `b`. -/
def matchCount (a b : List Char) : ℕ := matchCountF (a.length + b.length) a b

/-- Model of `SequenceMatcher.ratio()`: `2*M / (len(a)+len(b))`, and `1.0` when
both strings are empty (`_calculate_ratio`). -/
def smRatio (a b : List Char) : ℚ :=
  if a.length + b.length = 0 then 1
  else 2 * (matchCount a b : ℚ) / ((a.length : ℚ) + (b.length : ℚ))

/-- The `combined_score` computed for one row of `_fuzzy_search`
(lines 244-263): `name_similarity * 0.7 + artist_similarity * 0.3` when a
(truthy) artist name is supplied, else the name similarity alone. -/
def fuzzy_score (track_name : String) (artist_name : Option String)
    (row : TrackRecord) : ℚ :=
  let name_similarity := smRatio (lower track_name) (lower row.track_name)
  if truthy artist_name then
    name_similarity * (7 / 10)
      + smRatio (lower (artist_name.getD "")) (lower row.artist_name) * (3 / 10)
  else name_similarity

/-- Model of `MusicRecommender._fuzzy_search` (lines 222-273): scan the whole
dataframe keeping `(best_match, best_score)`, updating when
`combined_score > best_score and combined_score >= threshold`; return the
best match (as a single record) or `None`. -/
def fuzzy_search (config : Config) (df : List TrackRecord)
    (track_name : String) (artist_name : Option String) : Option TrackRecord :=
  let threshold := config.fuzzy_threshold
  (df.foldl
    (fun (st : Option TrackRecord × ℚ) row =>
      let combined_score := fuzzy_score track_name artist_name row
      if st.2 < combined_score ∧ threshold ≤ combined_score
      then (some row, combined_score) else st)
    (none, 0)).1

/-- Model of `MusicRecommender._find_track` (lines 176-220).  Returns the
dataframe the source returns: the full id-match for the id path,
`result.head(1)` for the exact-name path, a one-row frame for the fuzzy
path. -/
def find_track (config : Config) (df : List TrackRecord)
    (track_id track_name artist_name : Option String) :
    Option (List TrackRecord) :=
  let byId : Option (List TrackRecord) :=
    if truthy track_id then
      let result := df.filter (fun r => r.track_id == track_id.getD "")
      if result.isEmpty then none else some result
    else none
  match byId with
  | some r => some r
  | none =>
    if truthy track_name then
      let tn := track_name.getD ""
      let result := df.filter (fun r => lower r.track_name == lower tn)
      let exact : Option (List TrackRecord) :=
        if !result.isEmpty then
          let result2 :=
            if result.length > 1 && truthy artist_name then
              result.filter
                (fun r => lower r.artist_name == lower (artist_name.getD ""))
            else result
          if !result2.isEmpty then some (result2.take 1) else none
        else none
      match exact with
      | some r => some r
      | none =>
        if config.fuzzy_matching then
          match fuzzy_search config df tn artist_name with
          | some row => some [row]
          | none => none
        else none
    else none

/-- Model of `np.vstack` over one embedding column of the dataframe: fails
(ValueError) when the column is empty, when any entry is null, or when
the row dimensions do not agree; otherwise stacks the rows. -/
def vstack (cols : List (Option Vec)) : Option (List Vec) :=
  let vs := cols.filterMap id
  if cols.all (fun c => c.isSome) && !cols.isEmpty
      && vs.all (fun v => v.length == (vs.headD []).length)
  then some vs else none

/-- The column selected by `embedding_type` (the dataframe always carries
the three embedding columns, so `embedding_col in df.columns` holds
exactly for these three names). -/
def embeddingField (embedding_type : String) (r : TrackRecord) : Option Vec :=
  if embedding_type == "text" then r.text_embedding
  else if embedding_type == "feature" then r.feature_embedding
  else r.combined_embedding

/-- One entry of the returned recommendation list. -/
structure Recommendation where
  track_id : String
  track_name : String
  artist_name : String
  album_name : String
  similarity_score : WithBot ℝ

/-- Python `round(x, 4)` (modelled as exact nearest-integer rounding of
`10^4 x`; the float tie/representation subtleties are not observable in
the claims below).  `-inf` rounds to itself. -/
noncomputable def round4 : WithBot ℝ → WithBot ℝ :=
  Option.map (fun x : ℝ => ((round (x * 10000) : ℤ) : ℝ) / 10000)

/-- The result-assembly loop of `get_recommendations` (lines 143-170):
walk the ranked pairs, skip the query row, the same-artist rows (if
configured) and rows under the minimum-similarity threshold, and stop as
soon as `k` entries are collected (after appending, Python checks
`len(recommendations) >= k`, so `k = 0` still yields one entry). -/
noncomputable def resultsLoop (config : Config) (df : List TrackRecord)
    (query_index : ℕ) (query_artist_name : String) :
    ℕ → List (ℕ × WithBot ℝ) → List Recommendation
  | _, [] => []
  | k, (idx, similarity_score) :: rest =>
    if idx = query_index then
      resultsLoop config df query_index query_artist_name k rest
    else
      let track := df.getD idx default
      if config.exclude_same_artist && (track.artist_name == query_artist_name) then
        resultsLoop config df query_index query_artist_name k rest
      else if similarity_score < (config.min_similarity_threshold : WithBot ℝ) then
        resultsLoop config df query_index query_artist_name k rest
      else
        let rec0 : Recommendation :=
          ⟨track.track_id, track.track_name, track.artist_name,
            track.album_name, round4 similarity_score⟩
        if k ≤ 1 then [rec0]
        else rec0 :: resultsLoop config df query_index query_artist_name (k - 1) rest

/-- Model of `MusicRecommender.get_recommendations` (lines 80-174), on an already
loaded dataframe.  `Except.error` models a Python exception escaping the
method (there is no handler in the source); `Except.ok` is the returned
list. -/
noncomputable def get_recommendations (config : Config)
    (metric : SimilarityEngine.Metric) (df : List TrackRecord)
    (track_id track_name artist_name : Option String) (k : ℕ)
    (embedding_type : String) : Except String (List Recommendation) :=
  match find_track config df track_id track_name artist_name with
  | none => .ok []
  | some query_rows =>
    match query_rows with
    | [] => .error "IndexError: empty query result"
    | query_row :: _ =>
      if !(["combined", "text", "feature"].contains embedding_type) then .ok []
      else
        match vstack (df.map (embeddingField embedding_type)) with
        | none => .error "ValueError: np.vstack over a column with missing or mismatched vectors"
        | some embeddings_matrix =>
          let query_embedding := (embeddingField embedding_type query_row).getD []
          match df.findIdx? (fun r => r.track_id == query_row.track_id) with
          | none => .error "IndexError: query index lookup"
          | some query_index =>
            let similar := SimilarityEngine.find_similar metric query_embedding
              embeddings_matrix (k + 1) [(query_index : ℤ)]
            .ok (resultsLoop config df query_index query_row.artist_name k similar)

/-- The fold step of `_fuzzy_search`, named for the proofs below;
`fuzzy_search` is definitionally `(List.foldl (fuzzyStep thr s) (none, 0) df).1`
with `thr` the configured threshold and `s` the row score. -/
def fuzzyStep (thr : ℚ) (s : TrackRecord → ℚ)
    (st : Option TrackRecord × ℚ) (row : TrackRecord) : Option TrackRecord × ℚ :=
  if st.2 < s row ∧ thr ≤ s row then (some row, s row) else st

end MusicRecommender

/-! ## Sample data for concrete witnesses and counterexamples -/

namespace Samples

/-- A record with track name "Song". -/
def r1 : MusicRecommender.TrackRecord :=
  ⟨"id1", "Song", "Artist", "Album", none, none, none⟩

/-- A second record sharing `r1`'s track name (different id and artist). -/
def r2 : MusicRecommender.TrackRecord :=
  ⟨"id2", "Song", "Artist2", "Album2", none, none, none⟩

/-- A record whose name shares no character runs with the query "qq". -/
def r3 : MusicRecommender.TrackRecord :=
  ⟨"id3", "xyz", "a", "b", none, none, none⟩

/-- The fuzzy-matching example record from the spec. -/
def rb : MusicRecommender.TrackRecord :=
  ⟨"k1", "Mr. Brightside", "The Killers", "Hot Fuss", none, none, none⟩

/-- A record lacking its text vector. -/
def rMissing : MusicRecommender.TrackRecord :=
  ⟨"1", "A", "artA", "albA", none, none, none⟩

/-- A record carrying all three vectors. -/
def rFull : MusicRecommender.TrackRecord :=
  ⟨"2", "B", "artB", "albB", some [1], some [1], some [1]⟩

end Samples

/-! ## Shared helper lemmas -/

namespace SimilarityEngine

theorem getD_map_of_lt {α β : Type*} (f : α → β) (L : List α) (i : ℕ)
    (h : i < L.length) (dα : α) (dβ : β) :
    (L.map f).getD i dβ = f (L.getD i dα) := by
  induction L generalizing i with
  | nil => simp at h
  | cons a as ih =>
    cases i with
    | zero => rfl
    | succ n => simpa using ih n (by simpa using h)

theorem dotProd_comm (a b : Vec) : dotProd a b = dotProd b a := by
  unfold dotProd
  rw [List.zipWith_comm_of_comm]
  exact mul_comm

theorem argsortRel_total : ∀ a b : ℕ × WithBot ℝ, argsortRel a b ∨ argsortRel b a := by
  intro a b
  unfold argsortRel
  rcases lt_trichotomy a.2 b.2 with h | h | h
  · exact Or.inl (Or.inl h)
  · rcases le_total a.1 b.1 with h2 | h2
    · exact Or.inl (Or.inr ⟨h, h2⟩)
    · exact Or.inr (Or.inr ⟨h.symm, h2⟩)
  · exact Or.inr (Or.inl h)

theorem argsortRel_trans :
    ∀ a b c : ℕ × WithBot ℝ, argsortRel a b → argsortRel b c → argsortRel a c := by
  intro a b c hab hbc
  unfold argsortRel at *
  rcases hab with h1 | ⟨h1, h1'⟩ <;> rcases hbc with h2 | ⟨h2, h2'⟩
  · exact Or.inl (lt_trans h1 h2)
  · exact Or.inl (h2 ▸ h1)
  · exact Or.inl (h1 ▸ h2)
  · exact Or.inr ⟨h1.trans h2, le_trans h1' h2'⟩

theorem length_computeSimilarities (m : Metric) (q : Vec) (M : List Vec) :
    (computeSimilarities m q M).length = M.length := by
  cases m <;> simp [computeSimilarities, cosine_similarity, euclidean_distances]

theorem length_applyExclusions :
    ∀ (excl : List ℤ) (s : List (WithBot ℝ)),
      (applyExclusions s excl).length = s.length := by
  intro excl
  induction excl with
  | nil => intro s; rfl
  | cons e rest ih =>
    intro s
    show (applyExclusions
      (if 0 ≤ e ∧ e < (s.length : ℤ) then s.set e.toNat ⊥ else s) rest).length
      = s.length
    rw [ih]
    split <;> simp

theorem applyExclusions_bot_preserved :
    ∀ (excl : List ℤ) (s : List (WithBot ℝ)) (p : ℕ),
      s[p]? = some ⊥ → (applyExclusions s excl)[p]? = some ⊥ := by
  intro excl
  induction excl with
  | nil => intro s p h; exact h
  | cons e rest ih =>
    intro s p h
    show (applyExclusions
      (if 0 ≤ e ∧ e < (s.length : ℤ) then s.set e.toNat ⊥ else s) rest)[p]? = some ⊥
    apply ih
    split
    · by_cases hpe : e.toNat = p
      · subst hpe
        rename_i hcond
        exact List.getElem?_set_eq (by omega)
      · rw [List.getElem?_set_ne hpe]
        exact h
    · exact h

theorem applyExclusions_mem_bot :
    ∀ (excl : List ℤ) (s : List (WithBot ℝ)) (i : ℤ),
      i ∈ excl → 0 ≤ i → i < (s.length : ℤ) →
      (applyExclusions s excl)[i.toNat]? = some ⊥ := by
  intro excl
  induction excl with
  | nil => intro s i h; cases h
  | cons e rest ih =>
    intro s i hmem h0 hlt
    show (applyExclusions
      (if 0 ≤ e ∧ e < (s.length : ℤ) then s.set e.toNat ⊥ else s) rest)[i.toNat]?
      = some ⊥
    rcases List.mem_cons.mp hmem with rfl | hmem2
    · rw [if_pos ⟨h0, hlt⟩]
      apply applyExclusions_bot_preserved
      exact List.getElem?_set_eq (by omega)
    · apply ih _ _ hmem2 h0
      split <;> simpa using hlt

end SimilarityEngine

namespace EmbeddingCombiner

open SimilarityEngine (normSq l2norm)

theorem normSq_nonneg (v : Vec) : 0 ≤ normSq v := by
  apply List.sum_nonneg
  intro x hx
  obtain ⟨y, _, rfl⟩ := List.mem_map.mp hx
  positivity

theorem l2norm_sq (v : Vec) : l2norm v ^ 2 = normSq v :=
  Real.sq_sqrt (normSq_nonneg v)

theorem l2norm_eq_zero_iff (v : Vec) : l2norm v = 0 ↔ normSq v = 0 :=
  Real.sqrt_eq_zero (normSq_nonneg v)

theorem normSq_map_mul (v : Vec) (c : ℝ) :
    normSq (v.map (fun x => x * c)) = normSq v * c ^ 2 := by
  induction v with
  | nil => simp [normSq]
  | cons x xs ih =>
    simp only [List.map_cons, normSq, List.sum_cons] at *
    rw [ih]; ring

theorem normSq_append (a b : Vec) : normSq (a ++ b) = normSq a + normSq b := by
  simp [normSq]

theorem normSq_pos_of_mem {v : Vec} {x : ℝ} (hx : x ∈ v) (hne : x ≠ 0) :
    0 < normSq v := by
  have h1 : x ^ 2 ≤ normSq v := by
    apply List.single_le_sum
    · intro y hy
      obtain ⟨z, _, rfl⟩ := List.mem_map.mp hy
      positivity
    · exact List.mem_map.mpr ⟨x, hx, rfl⟩
  exact lt_of_lt_of_le (pow_two_pos_of_ne_zero hne) h1

theorem normSq_normalize_vector {v : Vec} (h : normSq v ≠ 0) :
    normSq (normalize_vector v) = 1 := by
  have hl : l2norm v ≠ 0 := fun hc => h ((l2norm_eq_zero_iff v).mp hc)
  unfold normalize_vector
  rw [if_neg hl]
  have : (fun x : ℝ => x / l2norm v) = fun x : ℝ => x * (l2norm v)⁻¹ := by
    funext x; rw [div_eq_mul_inv]
  rw [this, normSq_map_mul, inv_pow, ← l2norm_sq v, ← div_eq_mul_inv, div_self]
  rw [l2norm_sq]; exact h

theorem length_normalize_vector (v : Vec) :
    (normalize_vector v).length = v.length := by
  unfold normalize_vector
  split <;> simp

theorem l2norm_eq_one {v : Vec} (h : normSq v = 1) : l2norm v = 1 := by
  unfold SimilarityEngine.l2norm
  rw [h, Real.sqrt_one]

end EmbeddingCombiner

namespace MusicRecommender

theorem foldl_inv {α β : Type*} (P : β → Prop) (f : β → α → β) :
    ∀ (l : List α) (init : β), P init →
      (∀ acc x, P acc → x ∈ l → P (f acc x)) → P (l.foldl f init) := by
  intro l
  induction l with
  | nil => intro init h _; exact h
  | cons x xs ih =>
    intro init h hstep
    exact ih (f init x) (hstep init x h (List.mem_cons_self x xs))
      (fun acc y hy hmem => hstep acc y hy (List.mem_cons_of_mem x hmem))

theorem matchingRun_le_left : ∀ a b : List Char, matchingRun a b ≤ a.length := by
  intro a
  induction a with
  | nil => intro b; cases b <;> simp [matchingRun]
  | cons x xs ih =>
    intro b
    cases b with
    | nil => simp [matchingRun]
    | cons y ys =>
      rw [matchingRun]
      split
      · simpa using Nat.succ_le_succ (ih ys)
      · simp

theorem matchingRun_le_right : ∀ a b : List Char, matchingRun a b ≤ b.length := by
  intro a
  induction a with
  | nil => intro b; cases b <;> simp [matchingRun]
  | cons x xs ih =>
    intro b
    cases b with
    | nil => simp [matchingRun]
    | cons y ys =>
      rw [matchingRun]
      split
      · simpa using Nat.succ_le_succ (ih ys)
      · simp

theorem find_longest_match_le (a b : List Char) :
    (find_longest_match a b).1 + (find_longest_match a b).2.2 ≤ a.length ∧
    (find_longest_match a b).2.1 + (find_longest_match a b).2.2 ≤ b.length := by
  unfold find_longest_match
  apply foldl_inv
    (P := fun best : ℕ × ℕ × ℕ =>
      best.1 + best.2.2 ≤ a.length ∧ best.2.1 + best.2.2 ≤ b.length)
  · simp
  · intro acc i hacc hi
    apply foldl_inv
      (P := fun best : ℕ × ℕ × ℕ =>
        best.1 + best.2.2 ≤ a.length ∧ best.2.1 + best.2.2 ≤ b.length)
    · exact hacc
    · intro acc2 j hacc2 hj
      dsimp only
      split
      · have hi2 : i < a.length := List.mem_range.mp hi
        have hj2 : j < b.length := List.mem_range.mp hj
        have h1 := matchingRun_le_left (a.drop i) (b.drop j)
        have h2 := matchingRun_le_right (a.drop i) (b.drop j)
        rw [List.length_drop] at h1 h2
        constructor
        · show i + matchingRun (a.drop i) (b.drop j) ≤ a.length
          omega
        · show j + matchingRun (a.drop i) (b.drop j) ≤ b.length
          omega
      · exact hacc2

theorem matchCountF_le (fuel : ℕ) :
    ∀ a b : List Char, matchCountF fuel a b ≤ min a.length b.length := by
  induction fuel with
  | zero => intro a b; simp [matchCountF]
  | succ n ih =>
    intro a b
    rw [matchCountF]
    split
    · exact Nat.zero_le _
    · have hle := find_longest_match_le a b
      have h1 := ih (a.take (find_longest_match a b).1) (b.take (find_longest_match a b).2.1)
      have h2 := ih (a.drop ((find_longest_match a b).1 + (find_longest_match a b).2.2))
        (b.drop ((find_longest_match a b).2.1 + (find_longest_match a b).2.2))
      rw [List.length_take, List.length_take] at h1
      rw [List.length_drop, List.length_drop] at h2
      have h1a := le_trans h1 (le_trans (min_le_left _ _) (min_le_left _ _))
      have h1b := le_trans h1 (le_trans (min_le_right _ _) (min_le_left _ _))
      have h2a := le_trans h2 (min_le_left _ _)
      have h2b := le_trans h2 (min_le_right _ _)
      rw [le_min_iff]
      exact ⟨by omega, by omega⟩

theorem matchCount_le (a b : List Char) :
    matchCount a b ≤ min a.length b.length :=
  matchCountF_le _ a b

theorem smRatio_nonneg (a b : List Char) : 0 ≤ smRatio a b := by
  unfold smRatio
  split
  · norm_num
  · positivity

theorem smRatio_le_one (a b : List Char) : smRatio a b ≤ 1 := by
  unfold smRatio
  split
  · exact le_refl 1
  · rename_i h
    have hmc := matchCount_le a b
    have hmca := le_trans hmc (min_le_left _ _)
    have hmcb := le_trans hmc (min_le_right _ _)
    have hpos : 0 < a.length + b.length := Nat.pos_of_ne_zero h
    rw [div_le_one (by exact_mod_cast hpos)]
    have : 2 * matchCount a b ≤ a.length + b.length := by omega
    exact_mod_cast this

theorem fuzzy_score_mem_unit (tn : String) (an : Option String) (row : TrackRecord) :
    0 ≤ fuzzy_score tn an row ∧ fuzzy_score tn an row ≤ 1 := by
  unfold fuzzy_score
  split
  · have h1 := smRatio_nonneg (lower tn) (lower row.track_name)
    have h2 := smRatio_le_one (lower tn) (lower row.track_name)
    have h3 := smRatio_nonneg (lower (an.getD "")) (lower row.artist_name)
    have h4 := smRatio_le_one (lower (an.getD "")) (lower row.artist_name)
    constructor <;> nlinarith
  · exact ⟨smRatio_nonneg _ _, smRatio_le_one _ _⟩

theorem fuzzy_fold_spec (thr : ℚ) (s : TrackRecord → ℚ) :
    ∀ (l : List TrackRecord) (st : Option TrackRecord × ℚ),
    (∀ r, (List.foldl (fuzzyStep thr s) st l).1 = some r →
      (st.1 = some r ∧ (List.foldl (fuzzyStep thr s) st l).2 = st.2) ∨
      (r ∈ l ∧ (List.foldl (fuzzyStep thr s) st l).2 = s r ∧ thr ≤ s r)) ∧
    st.2 ≤ (List.foldl (fuzzyStep thr s) st l).2 ∧
    (∀ r' ∈ l, thr ≤ s r' → s r' ≤ (List.foldl (fuzzyStep thr s) st l).2) ∧
    ((List.foldl (fuzzyStep thr s) st l).1 = none →
      List.foldl (fuzzyStep thr s) st l = st ∧
      ∀ r ∈ l, ¬(st.2 < s r ∧ thr ≤ s r)) := by
  intro l
  induction l with
  | nil =>
    intro st
    exact ⟨fun r h => Or.inl ⟨h, rfl⟩, le_refl _,
      fun r hr => absurd hr (List.not_mem_nil r),
      fun _ => ⟨rfl, fun r hr => absurd hr (List.not_mem_nil r)⟩⟩
  | cons x xs ih =>
    intro st
    simp only [List.foldl_cons]
    obtain ⟨ih1, ih2, ih3, ih4⟩ := ih (fuzzyStep thr s st x)
    by_cases hc : st.2 < s x ∧ thr ≤ s x
    · have hx : fuzzyStep thr s st x = (some x, s x) := by
        unfold fuzzyStep; rw [if_pos hc]
      rw [hx] at ih1 ih2 ih3 ih4 ⊢
      refine ⟨?_, ?_, ?_, ?_⟩
      · intro r hr
        rcases ih1 r hr with ⟨h1, h2⟩ | ⟨h1, h2, h3⟩
        · have hrx : x = r := by simpa using h1
          subst hrx
          exact Or.inr ⟨List.mem_cons_self x xs, h2, hc.2⟩
        · exact Or.inr ⟨List.mem_cons_of_mem x h1, h2, h3⟩
      · exact le_trans (le_of_lt hc.1) ih2
      · intro r' hr' hthr
        rcases List.mem_cons.mp hr' with rfl | hmem
        · exact ih2
        · exact ih3 r' hmem hthr
      · intro hnone
        obtain ⟨heq, _⟩ := ih4 hnone
        rw [heq] at hnone
        simp at hnone
    · have hx : fuzzyStep thr s st x = st := by
        unfold fuzzyStep; rw [if_neg hc]
      rw [hx] at ih1 ih2 ih3 ih4 ⊢
      refine ⟨?_, ih2, ?_, ?_⟩
      · intro r hr
        rcases ih1 r hr with h | ⟨h1, h2, h3⟩
        · exact Or.inl h
        · exact Or.inr ⟨List.mem_cons_of_mem x h1, h2, h3⟩
      · intro r' hr' hthr
        rcases List.mem_cons.mp hr' with rfl | hmem
        · have hnlt : ¬ st.2 < s r' := fun hlt => hc ⟨hlt, hthr⟩
          exact le_trans (le_of_not_lt hnlt) ih2
        · exact ih3 r' hmem hthr
      · intro hnone
        obtain ⟨heq, hall⟩ := ih4 hnone
        exact ⟨heq, fun r hr =>
          (List.mem_cons.mp hr).elim (fun h => h ▸ hc) (hall r)⟩

end MusicRecommender

/-! ## Claims -/

namespace Claims

open SimilarityEngine

/-- C9: for every metric and matrices `Q`, `T`, entry `(i, j)` of
`batch_similarity Q T` equals `compute_similarity (Q i) (T j)`, and also
equals the pre-exclusion similarity that `find_similar` computes for
candidate `j` when queried with row `i` of `Q` against `T`. -/
theorem metric_consistency (m : Metric) (Q T : List Vec) (i j : ℕ)
    (hi : i < Q.length) (hj : j < T.length) :
    ((batch_similarity m Q T).getD i []).getD j 0
        = compute_similarity m (Q.getD i []) (T.getD j []) ∧
    (computeSimilarities m (Q.getD i []) T).getD j 0
        = compute_similarity m (Q.getD i []) (T.getD j []) := by
  cases m with
  | cosine =>
    constructor
    · rw [show batch_similarity .cosine Q T
          = Q.map (fun q => T.map (fun t => cosinePair q t)) from rfl,
        getD_map_of_lt _ Q i hi [], getD_map_of_lt _ T j hj []]
      simp [compute_similarity, cosine_similarity]
    · simp only [computeSimilarities, cosine_similarity, List.map_cons,
        List.map_nil, List.headD_cons]
      rw [getD_map_of_lt _ T j hj []]
      simp [compute_similarity, cosine_similarity]
  | euclidean =>
    constructor
    · rw [show batch_similarity .euclidean Q T
          = (Q.map (fun q => T.map (fun t => euclidPair q t))).map
              (fun row => row.map (fun d => 1 / (1 + d))) from rfl,
        getD_map_of_lt _ _ i (by simpa using hi) [],
        getD_map_of_lt _ Q i hi [], getD_map_of_lt _ _ j (by simpa using hj) 0,
        getD_map_of_lt _ T j hj []]
      simp [compute_similarity, euclidean_distances]
    · simp only [computeSimilarities, euclidean_distances, List.map_cons,
        List.map_nil, List.headD_cons]
      rw [getD_map_of_lt _ _ j (by simpa using hj) 0, getD_map_of_lt _ T j hj []]
      simp [compute_similarity, euclidean_distances]
  | dot =>
    constructor
    · rw [show batch_similarity .dot Q T
          = Q.map (fun q => T.map (fun t => dotProd q t)) from rfl,
        getD_map_of_lt _ Q i hi [], getD_map_of_lt _ T j hj []]
      simp [compute_similarity, matmulT]
    · rw [show computeSimilarities .dot (Q.getD i []) T
          = T.map (fun row => dotProd row (Q.getD i [])) from rfl,
        getD_map_of_lt _ T j hj []]
      simp [compute_similarity, matmulT, dotProd_comm]

/-- Witness for C9 at concrete matrices (dot metric, `i = j = 0`). -/
theorem metric_consistency_witness :
    ((batch_similarity .dot [[(1 : ℝ), 2]] [[(3 : ℝ), 4]]).getD 0 []).getD 0 0
        = compute_similarity .dot ([[(1 : ℝ), 2]].getD 0 []) ([[(3 : ℝ), 4]].getD 0 []) ∧
    (computeSimilarities .dot ([[(1 : ℝ), 2]].getD 0 []) [[(3 : ℝ), 4]]).getD 0 0
        = compute_similarity .dot ([[(1 : ℝ), 2]].getD 0 []) ([[(3 : ℝ), 4]].getD 0 []) :=
  metric_consistency .dot [[(1 : ℝ), 2]] [[(3 : ℝ), 4]] 0 0 (by simp) (by simp)

/-- C1 (counterexample): with two candidates, index `0` excluded (and in
range) and `k = 2`, the excluded index is still returned: its score is
set to `-inf`, which sorts last but is *not* removed, so once `k` reaches
past the non-excluded candidates the excluded index appears in the
result. -/
theorem find_similar_excluded_returned_cex :
    find_similar .dot [1] [[1], [1]] 2 [0]
        = [(1, ((1 : ℝ) : WithBot ℝ)), (0, (⊥ : WithBot ℝ))] ∧
    (0 : ℕ) ∈ (find_similar .dot [1] [[1], [1]] 2 [0]).map Prod.fst ∧
    (0 : ℤ) ∈ ([0] : List ℤ) ∧ (0 : ℤ) < (([[(1 : ℝ)], [(1 : ℝ)]] : List Vec).length : ℤ) := by
  have hcs : computeSimilarities .dot [(1 : ℝ)] [[(1 : ℝ)], [(1 : ℝ)]] = [1, 1] := by
    norm_num [computeSimilarities, dotProd]
  have hb : (⊥ : WithBot ℝ) < 1 := WithBot.bot_lt_coe 1
  have heval : find_similar .dot [1] [[1], [1]] 2 [0]
      = [(1, ((1 : ℝ) : WithBot ℝ)), (0, (⊥ : WithBot ℝ))] := by
    unfold find_similar
    rw [hcs]
    norm_num [hb, applyExclusions, List.enum, List.enumFrom, List.insertionSort,
      List.orderedInsert, argsortRel, List.set]
  refine ⟨heval, ?_, by simp, by simp⟩
  rw [heval]
  simp

/-- C1 (amended): the result length is always at most `k`; and excluded
in-range indices never appear in the result *provided* `k` does not
exceed the number of candidates whose score was not set to `-inf` — the
counterexample shows that for larger `k` the `-inf`-scored excluded
entries overflow into the result. -/
theorem find_similar_exclusion (m : Metric) (q : Vec) (M : List Vec)
    (k : ℕ) (excl : List ℤ) :
    (find_similar m q M k excl).length ≤ k ∧
    (k ≤ countActive (applyExclusions
        ((computeSimilarities m q M).map (fun x : ℝ => (x : WithBot ℝ))) excl) →
      ∀ i : ℤ, i ∈ excl → 0 ≤ i → i < (M.length : ℤ) →
        i.toNat ∉ (find_similar m q M k excl).map Prod.fst) := by
  haveI ht : IsTotal (ℕ × WithBot ℝ) argsortRel := ⟨argsortRel_total⟩
  haveI htr : IsTrans (ℕ × WithBot ℝ) argsortRel :=
    ⟨fun a b c => argsortRel_trans a b c⟩
  set sims0 := (computeSimilarities m q M).map (fun x : ℝ => (x : WithBot ℝ)) with hs0
  set simsE := applyExclusions sims0 excl with hsE
  set srt := List.insertionSort argsortRel simsE.enum with hsrt
  have hfs : find_similar m q M k excl = (srt.reverse).take k := rfl
  constructor
  · rw [hfs, List.length_take]
    exact min_le_left _ _
  · intro hk i hmem h0 hlt hcontra
    obtain ⟨pr, hpr_mem, hpr_fst⟩ := List.mem_map.mp hcontra
    have hlen0 : sims0.length = M.length := by
      rw [hs0, List.length_map, length_computeSimilarities]
    have hbot : simsE[i.toNat]? = some ⊥ := by
      rw [hsE]
      exact applyExclusions_mem_bot excl sims0 i hmem h0 (by rw [hlen0]; exact hlt)
    have hpr_rev : pr ∈ srt.reverse := List.mem_of_mem_take (hfs ▸ hpr_mem)
    have hpr_enum : pr ∈ simsE.enum :=
      (List.perm_insertionSort argsortRel simsE.enum).subset
        (List.mem_reverse.mp hpr_rev)
    have hpr_get : simsE.get? pr.1 = some pr.2 := List.mem_enum_iff_get?.mp hpr_enum
    have hpr_bot : pr.2 = ⊥ := by
      rw [hpr_fst, List.get?_eq_getElem?, hbot] at hpr_get
      exact (Option.some.inj hpr_get).symm
    rw [hfs] at hpr_mem
    obtain ⟨p, hp_lt, hp_eq⟩ := List.mem_iff_getElem.mp hpr_mem
    have hp_lt_rev : p < srt.reverse.length := by
      rw [List.length_take] at hp_lt; omega
    have hp_lt_k : p < k := by
      rw [List.length_take] at hp_lt; omega
    have hrev_get : srt.reverse[p] = pr := by
      rw [List.getElem_take] at hp_eq
      exact hp_eq
    have hrev : (srt.reverse).Pairwise (fun a b => argsortRel b a) :=
      List.pairwise_reverse.mpr (List.sorted_insertionSort argsortRel simsE.enum)
    have hall_bot : ∀ jq (hq : jq < srt.reverse.length), p ≤ jq →
        (srt.reverse[jq]).2 = ⊥ := by
      intro jq hq hpq
      rcases eq_or_lt_of_le hpq with rfl | hlt2
      · have heq : srt.reverse[p] = pr := hrev_get
        rw [heq]
        exact hpr_bot
      · have harg := List.pairwise_iff_getElem.mp hrev p jq hp_lt_rev hq hlt2
        rw [hrev_get] at harg
        rcases harg with hlt3 | ⟨heq3, _⟩
        · rw [hpr_bot] at hlt3
          exact absurd hlt3 (not_lt_bot)
        · rw [hpr_bot] at heq3
          exact heq3
    have hcount_le : (srt.reverse).countP
        (fun x => !(WithBot.recBotCoe true (fun _ => false) x.2 : Bool)) ≤ p := by
      conv_lhs => rw [← List.take_append_drop p srt.reverse]
      rw [List.countP_append]
      have hdrop : (srt.reverse.drop p).countP
          (fun x => !(WithBot.recBotCoe true (fun _ => false) x.2 : Bool)) = 0 := by
        rw [List.countP_eq_zero]
        intro x hx
        obtain ⟨j, hj, hjx⟩ := List.mem_iff_getElem.mp hx
        have hjlen : p + j < srt.reverse.length := by
          rw [List.length_drop] at hj; omega
        have hget : (srt.reverse.drop p)[j] = srt.reverse[p + j] :=
          List.getElem_drop _
        rw [hget] at hjx
        have hbot2 := hall_bot (p + j) hjlen (Nat.le_add_right p j)
        rw [hjx] at hbot2
        rw [hbot2]
        simp
      rw [hdrop, Nat.add_zero]
      calc (List.take p srt.reverse).countP
            (fun x => !(WithBot.recBotCoe true (fun _ => false) x.2 : Bool))
          ≤ (List.take p srt.reverse).length := List.countP_le_length _
        _ ≤ p := by rw [List.length_take]; exact min_le_left _ _
    have hperm2 : List.Perm (srt.reverse) simsE.enum :=
      (List.reverse_perm srt).trans (List.perm_insertionSort _ _)
    have hcact : countActive simsE = (srt.reverse).countP
        (fun x => !(WithBot.recBotCoe true (fun _ => false) x.2 : Bool)) := by
      unfold countActive
      calc simsE.countP (fun s => !(WithBot.recBotCoe true (fun _ => false) s : Bool))
          = (simsE.enum.map Prod.snd).countP
              (fun s => !(WithBot.recBotCoe true (fun _ => false) s : Bool)) := by
            rw [List.enum_map_snd]
        _ = simsE.enum.countP
              ((fun s => !(WithBot.recBotCoe true (fun _ => false) s : Bool))
                ∘ Prod.snd) := List.countP_map _ _ _
        _ = (srt.reverse).countP
              ((fun s => !(WithBot.recBotCoe true (fun _ => false) s : Bool))
                ∘ Prod.snd) := ((hperm2.countP_eq _)).symm
        _ = (srt.reverse).countP
              (fun x => !(WithBot.recBotCoe true (fun _ => false) x.2 : Bool)) := rfl
    rw [hcact] at hk
    omega

/-- Witness for C1 (amended) at `k = 1` with one excluded and one active
candidate. -/
theorem find_similar_exclusion_witness :
    (find_similar .dot [1] [[1], [2]] 1 [0]).length ≤ 1 ∧
    (0 : ℤ).toNat ∉ (find_similar .dot [1] [[1], [2]] 1 [0]).map Prod.fst :=
  ⟨(find_similar_exclusion .dot [1] [[1], [2]] 1 [0]).1,
    (find_similar_exclusion .dot [1] [[1], [2]] 1 [0]).2 (by decide) 0
      (by decide) (by decide) (by decide)⟩

/-- C2 (counterexample): two candidates with exactly equal scores come
back with the *larger* original index first: ascending `np.argsort` puts
index 0 before index 1, and the `[::-1]` reversal flips that order, so
the claimed smaller-index-first tie rule fails. -/
theorem find_similar_tie_order_cex :
    find_similar .dot [1] [[1], [1]] 2 []
        = [(1, ((1 : ℝ) : WithBot ℝ)), (0, ((1 : ℝ) : WithBot ℝ))] ∧
    ¬ (find_similar .dot [1] [[1], [1]] 2 []).Pairwise
        (fun a b => b.2 < a.2 ∨ (b.2 = a.2 ∧ a.1 < b.1)) := by
  have hcs : computeSimilarities .dot [(1 : ℝ)] [[(1 : ℝ)], [(1 : ℝ)]] = [1, 1] := by
    norm_num [computeSimilarities, dotProd]
  have heval : find_similar .dot [1] [[1], [1]] 2 []
      = [(1, ((1 : ℝ) : WithBot ℝ)), (0, ((1 : ℝ) : WithBot ℝ))] := by
    unfold find_similar
    rw [hcs]
    simp [applyExclusions, List.enum, List.enumFrom, List.insertionSort,
      List.orderedInsert, argsortRel]
  refine ⟨heval, ?_⟩
  rw [heval]
  intro hp
  have h1 := (List.pairwise_cons.mp hp).1 (0, ((1 : ℝ) : WithBot ℝ)) (by simp)
  simp at h1

/-- C2 (amended): the pairs returned by `find_similar` are sorted in
descending (weakly decreasing) order of score, and the returned indices
are pairwise distinct.  The claimed smaller-index-first tie rule is
refuted by the counterexample, and no tie order is asserted in its
place: `np.argsort`'s default quicksort is documented non-stable, so the
program guarantees no particular order among equal scores (on the small
arrays of the counterexample its insertion sort plus the `[::-1]`
reversal happens to yield larger index first).  Both properties proved
here are invariant under the argsort model's tie-breaking. -/
theorem find_similar_sorted_desc (m : Metric) (q : Vec) (M : List Vec)
    (k : ℕ) (excl : List ℤ) :
    (find_similar m q M k excl).Pairwise (fun a b => b.2 ≤ a.2) ∧
    ((find_similar m q M k excl).map Prod.fst).Nodup := by
  haveI ht : IsTotal (ℕ × WithBot ℝ) argsortRel := ⟨argsortRel_total⟩
  haveI htr : IsTrans (ℕ × WithBot ℝ) argsortRel :=
    ⟨fun a b c => argsortRel_trans a b c⟩
  set simsE := applyExclusions
    ((computeSimilarities m q M).map (fun x : ℝ => (x : WithBot ℝ))) excl with hsE
  set srt := List.insertionSort argsortRel simsE.enum with hsrt
  have hfs : find_similar m q M k excl = (srt.reverse).take k := rfl
  constructor
  · rw [hfs]
    have hs : srt.Sorted argsortRel := List.sorted_insertionSort argsortRel simsE.enum
    have hrev : (srt.reverse).Pairwise (fun a b => argsortRel b a) :=
      List.pairwise_reverse.mpr hs
    have hdesc : (srt.reverse).Pairwise (fun a b : ℕ × WithBot ℝ => b.2 ≤ a.2) := by
      refine hrev.imp ?_
      intro a b hab
      rcases hab with h | ⟨h, _⟩
      · exact le_of_lt h
      · exact le_of_eq h
    exact List.Pairwise.sublist (List.take_sublist k srt.reverse) hdesc
  · rw [hfs, List.map_take]
    have hnodup : ((srt.reverse).map Prod.fst).Nodup := by
      rw [List.map_reverse, List.nodup_reverse]
      have hperm : List.Perm (srt.map Prod.fst) (simsE.enum.map Prod.fst) :=
        (List.perm_insertionSort argsortRel simsE.enum).map Prod.fst
      rw [hperm.nodup_iff, List.enum_map_fst]
      exact List.nodup_range _
    exact List.Nodup.sublist (List.take_sublist _ _) hnodup

/-- C8: absence propagates through fusion: if either input vector of
`combine_embeddings` is `None`, the combined vector is `None`, for any
weights and either value of the normalize flag. -/
theorem combine_embeddings_absence (tv fv : Option Vec) (w1 w2 : ℝ) (nf : Bool) :
    EmbeddingCombiner.combine_embeddings none fv w1 w2 nf = none ∧
    EmbeddingCombiner.combine_embeddings tv none w1 w2 nf = none := by
  constructor
  · cases fv <;> rfl
  · cases tv <;> rfl

/-- C3 (counterexample): with the query record resolvable by id but
lacking its text vector, requesting `embedding_type = "text"` makes
`np.vstack` fail on the column — `get_recommendations` propagates the
exception instead of returning an empty list. -/
theorem get_recommendations_missing_vector_cex :
    MusicRecommender.get_recommendations {} .cosine [Samples.rMissing, Samples.rFull]
        (some "1") none none 5 "text"
      = .error "ValueError: np.vstack over a column with missing or mismatched vectors" ∧
    MusicRecommender.embeddingField "text" Samples.rMissing = none := by
  constructor <;> rfl

/-- C3 (amended): whenever track resolution succeeds and some loaded
record lacks the vector field for the requested (valid) embedding type,
`get_recommendations` raises an exception past the interface boundary
(the `np.vstack` ValueError); the empty-list outcome is reserved for
resolution failure and unknown embedding types, not for missing
vectors. -/
theorem get_recommendations_missing_vector (cfg : MusicRecommender.Config)
    (metric : Metric) (df : List MusicRecommender.TrackRecord)
    (tid tname aname : Option String) (k : ℕ) (et : String)
    (hrows : ∃ rows, MusicRecommender.find_track cfg df tid tname aname = some rows)
    (het : ["combined", "text", "feature"].contains et = true)
    (hmiss : ∃ r ∈ df, MusicRecommender.embeddingField et r = none) :
    ∃ e, MusicRecommender.get_recommendations cfg metric df tid tname aname k et
      = .error e := by
  obtain ⟨rows, hr⟩ := hrows
  have hv : MusicRecommender.vstack (df.map (MusicRecommender.embeddingField et))
      = none := by
    obtain ⟨r, hrm, hre⟩ := hmiss
    unfold MusicRecommender.vstack
    have hall : (df.map (MusicRecommender.embeddingField et)).all
        (fun c => c.isSome) = false := by
      rw [List.all_eq_false]
      exact ⟨MusicRecommender.embeddingField et r, List.mem_map_of_mem _ hrm,
        by rw [hre]; simp⟩
    rw [hall]
    simp
  unfold MusicRecommender.get_recommendations
  rw [hr]
  cases rows with
  | nil => exact ⟨_, rfl⟩
  | cons qr rest =>
    rw [het]
    simp only [Bool.not_true, Bool.false_eq_true, if_false]
    rw [hv]
    exact ⟨_, rfl⟩

/-- Witness for C3 (amended) at the concrete two-record dataframe. -/
theorem get_recommendations_missing_vector_witness :
    ∃ e, MusicRecommender.get_recommendations {} .euclidean
        [Samples.rMissing, Samples.rFull] (some "1") none none 3 "text"
      = .error e :=
  get_recommendations_missing_vector {} .euclidean [Samples.rMissing, Samples.rFull]
    (some "1") none none 3 "text" ⟨[Samples.rMissing], rfl⟩ (by rfl)
    ⟨Samples.rMissing, List.mem_cons_self _ _, rfl⟩

/-- C4 (counterexample): with both vectors present and non-degenerate but
both weights `0` — weights the claim quantifies over — the combined
vector is the zero vector of the right dimension and the final
normalization's zero-norm guard leaves it with L2 norm `0`, not `1`. -/
theorem combine_embeddings_norm_cex :
    EmbeddingCombiner.combine_embeddings (some [(1 : ℝ)]) (some [(1 : ℝ)]) 0 0 true
        = some [0, 0] ∧
    l2norm [(0 : ℝ), 0] = 0 ∧ l2norm [(0 : ℝ), 0] ≠ 1 := by
  have hl1 : l2norm [(1 : ℝ)] = 1 := by
    norm_num [SimilarityEngine.l2norm, SimilarityEngine.normSq, Real.sqrt_one]
  have hn1 : EmbeddingCombiner.normalize_vector [(1 : ℝ)] = [1] := by
    unfold EmbeddingCombiner.normalize_vector
    rw [if_neg (by rw [hl1]; exact one_ne_zero), hl1]
    norm_num
  have hl0 : l2norm [(0 : ℝ), 0] = 0 := by
    norm_num [SimilarityEngine.l2norm, SimilarityEngine.normSq, Real.sqrt_zero]
  refine ⟨?_, hl0, by rw [hl0]; exact zero_ne_one⟩
  show some (EmbeddingCombiner.normalize_vector
      ((EmbeddingCombiner.normalize_vector [(1 : ℝ)]).map (fun x => x * 0)
        ++ (EmbeddingCombiner.normalize_vector [(1 : ℝ)]).map (fun x => x * 0)))
      = some [0, 0]
  rw [hn1]
  norm_num
  unfold EmbeddingCombiner.normalize_vector
  rw [if_pos hl0]

/-- C4 (amended): for present vectors `tv`, `fv` and weights such that at
least one weighted input is genuinely nonzero (nonzero weight on a vector
with a nonzero entry), combining with the normalize flag set yields a
vector of dimension `len tv + len fv` with L2 norm `1`.  (The
counterexample forces excluding the case where the weighted concatenation
is the zero vector, which the zero-norm guard returns unnormalized.) -/
theorem combine_embeddings_normalized (tv fv : Vec) (w1 w2 : ℝ)
    (h : (w1 ≠ 0 ∧ ∃ x ∈ tv, x ≠ 0) ∨ (w2 ≠ 0 ∧ ∃ x ∈ fv, x ≠ 0)) :
    ∃ v, EmbeddingCombiner.combine_embeddings (some tv) (some fv) w1 w2 true
      = some v ∧ v.length = tv.length + fv.length ∧ l2norm v = 1 := by
  set nt := EmbeddingCombiner.normalize_vector tv with hnt
  set nf := EmbeddingCombiner.normalize_vector fv with hnf
  set c := nt.map (fun x => x * w1) ++ nf.map (fun x => x * w2) with hc
  have hcomb : EmbeddingCombiner.combine_embeddings (some tv) (some fv) w1 w2 true
      = some (EmbeddingCombiner.normalize_vector c) := rfl
  have hsq : normSq c = normSq nt * w1 ^ 2 + normSq nf * w2 ^ 2 := by
    rw [hc, EmbeddingCombiner.normSq_append, EmbeddingCombiner.normSq_map_mul,
      EmbeddingCombiner.normSq_map_mul]
  have hpos : 0 < normSq c := by
    rcases h with ⟨hw, x, hx, hxne⟩ | ⟨hw, x, hx, hxne⟩
    · have h1 : normSq nt = 1 :=
        EmbeddingCombiner.normSq_normalize_vector
          (ne_of_gt (EmbeddingCombiner.normSq_pos_of_mem hx hxne))
      rw [hsq, h1, one_mul]
      have h2 : 0 ≤ normSq nf * w2 ^ 2 :=
        mul_nonneg (EmbeddingCombiner.normSq_nonneg nf) (sq_nonneg w2)
      have h3 : 0 < w1 ^ 2 := pow_two_pos_of_ne_zero hw
      linarith
    · have h1 : normSq nf = 1 :=
        EmbeddingCombiner.normSq_normalize_vector
          (ne_of_gt (EmbeddingCombiner.normSq_pos_of_mem hx hxne))
      rw [hsq, h1, one_mul]
      have h2 : 0 ≤ normSq nt * w1 ^ 2 :=
        mul_nonneg (EmbeddingCombiner.normSq_nonneg nt) (sq_nonneg w1)
      have h3 : 0 < w2 ^ 2 := pow_two_pos_of_ne_zero hw
      linarith
  refine ⟨EmbeddingCombiner.normalize_vector c, hcomb, ?_, ?_⟩
  · rw [EmbeddingCombiner.length_normalize_vector, hc]
    simp [EmbeddingCombiner.length_normalize_vector, hnt, hnf]
  · exact EmbeddingCombiner.l2norm_eq_one
      (EmbeddingCombiner.normSq_normalize_vector (ne_of_gt hpos))

/-- Witness for C4 (amended) at `tv = [1]`, `fv = [2]`, weights `1`, `0`. -/
theorem combine_embeddings_normalized_witness :
    ∃ v, EmbeddingCombiner.combine_embeddings (some [(1 : ℝ)]) (some [(2 : ℝ)]) 1 0 true
      = some v ∧ v.length = [(1 : ℝ)].length + [(2 : ℝ)].length ∧ l2norm v = 1 :=
  combine_embeddings_normalized [(1 : ℝ)] [(2 : ℝ)] 1 0
    (Or.inl ⟨one_ne_zero, 1, by simp, one_ne_zero⟩)

/-- C6 (failing input): a column whose entries are all missing is left
untouched by `_handle_missing_values` — `Series.median()` of an all-NaN
column is NaN and `fillna(NaN)` changes nothing — so the matrix handed to
the scaler still contains a missing value, contradicting both the claim
(fill with 0) and the function's own docstring (returns a dataframe
without missing values). -/
theorem handle_missing_values_all_missing_column :
    FeatureEmbeddingsGenerator.handle_missing_values [[none, none]]
        = [[none, none]] ∧
    (FeatureEmbeddingsGenerator.handle_missing_values [[none, none]]).any
        (fun col => col.any (fun x => x.isNone)) = true := by
  constructor <;> rfl

/-- C5 (counterexample): with `track_id = "zz"` given but absent from the
data and `track_name = "Song"` present, `_find_track` does not fail: the
identifier lookup misses and resolution falls through to name matching,
returning the name match — so identifier resolution is not terminal when
the id is not found. -/
theorem find_track_id_fallthrough_cex :
    MusicRecommender.find_track {} [Samples.r1] (some "zz") (some "Song") none
        = some [Samples.r1] ∧
    [Samples.r1].filter (fun r => r.track_id == "zz") = [] := by
  constructor <;> rfl

/-- C5 (amended): when `track_id` is given (truthy), the identifier
lookup is decisive only if it finds a match — the whole id-match frame is
returned and name matching is bypassed; when the identifier lookup finds
nothing, resolution proceeds exactly as if `track_id` had not been given
(falling through to exact/fuzzy name matching). -/
theorem find_track_id_semantics (cfg : MusicRecommender.Config)
    (df : List MusicRecommender.TrackRecord) (tid tname aname : Option String)
    (h : MusicRecommender.truthy tid = true) :
    (df.filter (fun r => r.track_id == tid.getD "") ≠ [] →
      MusicRecommender.find_track cfg df tid tname aname
        = some (df.filter (fun r => r.track_id == tid.getD ""))) ∧
    (df.filter (fun r => r.track_id == tid.getD "") = [] →
      MusicRecommender.find_track cfg df tid tname aname
        = MusicRecommender.find_track cfg df none tname aname) := by
  constructor
  · intro hne
    have hempty : (df.filter (fun r => r.track_id == tid.getD "")).isEmpty = false := by
      simpa [List.isEmpty_iff] using hne
    simp [MusicRecommender.find_track, h, hempty]
  · intro he
    have hempty : (df.filter (fun r => r.track_id == tid.getD "")).isEmpty = true := by
      simpa [List.isEmpty_iff] using he
    simp [MusicRecommender.find_track, h, hempty, MusicRecommender.truthy]

/-- Witness for C5 (amended) at a concrete record list and id. -/
theorem find_track_id_semantics_witness :
    MusicRecommender.find_track {} [Samples.r1] (some "id1") none none
      = some ([Samples.r1].filter (fun r => r.track_id == (some "id1").getD "")) :=
  (find_track_id_semantics {} [Samples.r1] (some "id1") none none (by rfl)).1
    (by rw [show [Samples.r1].filter (fun r => r.track_id == (some "id1").getD "")
        = [Samples.r1] from rfl]
        exact List.cons_ne_nil _ _)

/-- C10: with no (truthy) `track_id`, when the case-insensitive exact
name match yields more than one row, resolution neither fails nor falls
through to fuzzy matching: if no (truthy) `artist_name` is given it
returns the first matching row in dataset order (`result.head(1)`), and
if artist narrowing still leaves more than one row it returns the first
narrowed row. -/
theorem find_track_name_first_row (cfg : MusicRecommender.Config)
    (df : List MusicRecommender.TrackRecord) (tname aname : Option String)
    (htn : MusicRecommender.truthy tname = true) :
    (1 < (df.filter (fun r =>
        MusicRecommender.lower r.track_name
          == MusicRecommender.lower (tname.getD ""))).length →
      MusicRecommender.truthy aname = false →
      MusicRecommender.find_track cfg df none tname aname
        = some ((df.filter (fun r =>
            MusicRecommender.lower r.track_name
              == MusicRecommender.lower (tname.getD ""))).take 1)) ∧
    (1 < (df.filter (fun r =>
        MusicRecommender.lower r.track_name
          == MusicRecommender.lower (tname.getD ""))).length →
      MusicRecommender.truthy aname = true →
      1 < ((df.filter (fun r =>
          MusicRecommender.lower r.track_name
            == MusicRecommender.lower (tname.getD ""))).filter (fun r =>
          MusicRecommender.lower r.artist_name
            == MusicRecommender.lower (aname.getD ""))).length →
      MusicRecommender.find_track cfg df none tname aname
        = some (((df.filter (fun r =>
            MusicRecommender.lower r.track_name
              == MusicRecommender.lower (tname.getD ""))).filter (fun r =>
            MusicRecommender.lower r.artist_name
              == MusicRecommender.lower (aname.getD ""))).take 1)) := by
  have htn0 : MusicRecommender.truthy none = false := rfl
  constructor
  · intro hlen ha
    have hex1 : ∃ x ∈ df, MusicRecommender.lower x.track_name
        = MusicRecommender.lower (tname.getD "") := by
      rcases hfl : df.filter (fun r =>
          MusicRecommender.lower r.track_name
            == MusicRecommender.lower (tname.getD "")) with _ | ⟨y, ys⟩
      · rw [hfl] at hlen; simp at hlen
      · have hy := List.mem_filter.mp (hfl ▸ List.mem_cons_self y ys)
        exact ⟨y, hy.1, by simpa using hy.2⟩
    simp [MusicRecommender.find_track, htn, htn0, ha, hlen, hex1]
  · intro hlen ha hlen2
    have hex1 : ∃ x ∈ df, MusicRecommender.lower x.track_name
        = MusicRecommender.lower (tname.getD "") := by
      rcases hfl : df.filter (fun r =>
          MusicRecommender.lower r.track_name
            == MusicRecommender.lower (tname.getD "")) with _ | ⟨y, ys⟩
      · rw [hfl] at hlen; simp at hlen
      · have hy := List.mem_filter.mp (hfl ▸ List.mem_cons_self y ys)
        exact ⟨y, hy.1, by simpa using hy.2⟩
    have hex2 : ∃ x ∈ df, MusicRecommender.lower x.artist_name
        = MusicRecommender.lower (aname.getD "") ∧
        MusicRecommender.lower x.track_name
        = MusicRecommender.lower (tname.getD "") := by
      rcases hfl : (df.filter (fun r =>
          MusicRecommender.lower r.track_name
            == MusicRecommender.lower (tname.getD ""))).filter (fun r =>
          MusicRecommender.lower r.artist_name
            == MusicRecommender.lower (aname.getD "")) with _ | ⟨y, ys⟩
      · rw [hfl] at hlen2; simp at hlen2
      · have hy := List.mem_filter.mp (hfl ▸ List.mem_cons_self y ys)
        have hy1 := List.mem_filter.mp hy.1
        exact ⟨y, hy1.1, by simpa using hy.2, by simpa using hy1.2⟩
    simp [MusicRecommender.find_track, htn, htn0, ha, hlen, hlen2, hex1, hex2]

/-- C7 (counterexample): with the configured fuzzy threshold `0` (the
spec's declared range for `fuzzy_threshold` is 0–1) and a candidate whose
score is exactly `0`, the best-scoring candidate meets the threshold
(`0 ≥ 0`) yet `_fuzzy_search` returns no match, because the update
condition `combined_score > best_score` starts from `best_score = 0` and
is strict. -/
theorem fuzzy_search_zero_threshold_cex :
    MusicRecommender.fuzzy_search { fuzzy_threshold := 0 } [Samples.r3] "qq" none
        = none ∧
    ({ fuzzy_threshold := 0 } : MusicRecommender.Config).fuzzy_threshold
        ≤ MusicRecommender.fuzzy_score "qq" none Samples.r3 ∧
    Samples.r3 ∈ [Samples.r3] := by
  have hs : MusicRecommender.fuzzy_score "qq" none Samples.r3 = 0 := by
    show MusicRecommender.smRatio (MusicRecommender.lower "qq")
      (MusicRecommender.lower "xyz") = 0
    unfold MusicRecommender.smRatio
    rw [if_neg (by decide),
      show MusicRecommender.matchCount (MusicRecommender.lower "qq")
        (MusicRecommender.lower "xyz") = 0 from by decide]
    norm_num
  refine ⟨?_, le_of_eq hs.symm, List.mem_cons_self _ _⟩
  show (List.foldl (MusicRecommender.fuzzyStep 0
      (MusicRecommender.fuzzy_score "qq" none)) (none, 0) [Samples.r3]).1 = none
  rw [List.foldl_cons, List.foldl_nil]
  unfold MusicRecommender.fuzzyStep
  rw [hs]
  norm_num

/-- C7 (amended): provided the configured fuzzy threshold is positive
(the counterexample shows the claim fails at threshold `0`): every
candidate's score is a value in `[0,1]`; the score is
`0.7*name_ratio + 0.3*artist_ratio` when a (truthy) artist name is given
and the name ratio alone otherwise; a returned record is a best-scoring
candidate of the full scan with score at least the threshold; and when no
candidate reaches the threshold, resolution fails (`None`). -/
theorem fuzzy_search_spec (cfg : MusicRecommender.Config)
    (df : List MusicRecommender.TrackRecord) (tn : String) (an : Option String)
    (h : 0 < cfg.fuzzy_threshold) :
    (∀ row ∈ df, 0 ≤ MusicRecommender.fuzzy_score tn an row ∧
      MusicRecommender.fuzzy_score tn an row ≤ 1) ∧
    (∀ row : MusicRecommender.TrackRecord, MusicRecommender.truthy an = true →
      MusicRecommender.fuzzy_score tn an row
        = (7 / 10) * MusicRecommender.smRatio
            (MusicRecommender.lower tn) (MusicRecommender.lower row.track_name)
          + (3 / 10) * MusicRecommender.smRatio
            (MusicRecommender.lower (an.getD ""))
            (MusicRecommender.lower row.artist_name)) ∧
    (∀ row : MusicRecommender.TrackRecord, MusicRecommender.truthy an = false →
      MusicRecommender.fuzzy_score tn an row
        = MusicRecommender.smRatio
            (MusicRecommender.lower tn) (MusicRecommender.lower row.track_name)) ∧
    (∀ r, MusicRecommender.fuzzy_search cfg df tn an = some r →
      r ∈ df ∧ cfg.fuzzy_threshold ≤ MusicRecommender.fuzzy_score tn an r ∧
      ∀ r' ∈ df, MusicRecommender.fuzzy_score tn an r'
        ≤ MusicRecommender.fuzzy_score tn an r) ∧
    (MusicRecommender.fuzzy_search cfg df tn an = none →
      ∀ r ∈ df, MusicRecommender.fuzzy_score tn an r < cfg.fuzzy_threshold) := by
  have key := MusicRecommender.fuzzy_fold_spec cfg.fuzzy_threshold
    (MusicRecommender.fuzzy_score tn an) df (none, 0)
  have heq : MusicRecommender.fuzzy_search cfg df tn an
      = (List.foldl (MusicRecommender.fuzzyStep cfg.fuzzy_threshold
          (MusicRecommender.fuzzy_score tn an)) (none, 0) df).1 := rfl
  refine ⟨fun row _ => MusicRecommender.fuzzy_score_mem_unit tn an row, ?_, ?_, ?_, ?_⟩
  · intro row ha
    unfold MusicRecommender.fuzzy_score
    rw [ha]
    simp only [if_true]
    ring
  · intro row ha
    unfold MusicRecommender.fuzzy_score
    rw [ha]
    simp only [Bool.false_eq_true, if_false]
  · intro r hr
    rw [heq] at hr
    rcases key.1 r hr with ⟨h1, _⟩ | ⟨h1, h2, h3⟩
    · exact absurd h1 (by simp)
    · refine ⟨h1, h3, fun r' hr' => ?_⟩
      by_cases ht : cfg.fuzzy_threshold ≤ MusicRecommender.fuzzy_score tn an r'
      · have := key.2.2.1 r' hr' ht
        rw [h2] at this
        exact this
      · exact le_trans (le_of_lt (lt_of_not_le ht)) h3
  · intro hnone r hrm
    rw [heq] at hnone
    obtain ⟨_, hall⟩ := key.2.2.2 hnone
    by_contra hcon
    have hthr : cfg.fuzzy_threshold ≤ MusicRecommender.fuzzy_score tn an r :=
      le_of_not_lt hcon
    exact hall r hrm ⟨lt_of_lt_of_le h hthr, hthr⟩

/-- Witness for C7 (amended) on the spec's own fuzzy example record with
the default threshold `0.8`. -/
theorem fuzzy_search_spec_witness :
    (∀ row ∈ [Samples.rb], 0 ≤ MusicRecommender.fuzzy_score "mr brightside" none row ∧
      MusicRecommender.fuzzy_score "mr brightside" none row ≤ 1) ∧
    (∀ row : MusicRecommender.TrackRecord, MusicRecommender.truthy none = true →
      MusicRecommender.fuzzy_score "mr brightside" none row
        = (7 / 10) * MusicRecommender.smRatio
            (MusicRecommender.lower "mr brightside")
            (MusicRecommender.lower row.track_name)
          + (3 / 10) * MusicRecommender.smRatio
            (MusicRecommender.lower ((none : Option String).getD ""))
            (MusicRecommender.lower row.artist_name)) ∧
    (∀ row : MusicRecommender.TrackRecord, MusicRecommender.truthy none = false →
      MusicRecommender.fuzzy_score "mr brightside" none row
        = MusicRecommender.smRatio
            (MusicRecommender.lower "mr brightside")
            (MusicRecommender.lower row.track_name)) ∧
    (∀ r, MusicRecommender.fuzzy_search {} [Samples.rb] "mr brightside" none = some r →
      r ∈ [Samples.rb] ∧
      ({} : MusicRecommender.Config).fuzzy_threshold
        ≤ MusicRecommender.fuzzy_score "mr brightside" none r ∧
      ∀ r' ∈ [Samples.rb], MusicRecommender.fuzzy_score "mr brightside" none r'
        ≤ MusicRecommender.fuzzy_score "mr brightside" none r) ∧
    (MusicRecommender.fuzzy_search {} [Samples.rb] "mr brightside" none = none →
      ∀ r ∈ [Samples.rb],
        MusicRecommender.fuzzy_score "mr brightside" none r
          < ({} : MusicRecommender.Config).fuzzy_threshold) :=
  fuzzy_search_spec {} [Samples.rb] "mr brightside" none (by norm_num)

/-- Witness for C10: two records share the name "Song"; with no artist
the first one in dataset order is returned. -/
theorem find_track_name_first_row_witness :
    1 < ([Samples.r1, Samples.r2].filter (fun r =>
        MusicRecommender.lower r.track_name
          == MusicRecommender.lower ((some "Song").getD ""))).length ∧
    MusicRecommender.find_track {} [Samples.r1, Samples.r2] none (some "Song") none
      = some (([Samples.r1, Samples.r2].filter (fun r =>
          MusicRecommender.lower r.track_name
            == MusicRecommender.lower ((some "Song").getD ""))).take 1) :=
  ⟨by decide,
    (find_track_name_first_row {} [Samples.r1, Samples.r2] (some "Song") none (by rfl)).1
      (by decide) (by rfl)⟩

end Claims
